import Mathlib

/-!
Shallow embedding of `src/services/downloadManager.ts` (the download
subsystem of the Gemini-AI-Translator repository).

The IndexedDB object stores (`model-meta`, `model-chunks`,
`consolidated-models`), the OPFS directory, and the in-flight
`AbortController` map are modelled as explicit components of a state
record `St`.  IndexedDB `put` with a `keyPath` replaces the whole record
for that key, so metadata records carry `Option` fields for the keys a
given `put` call omits (`downloaded`, `error`).  Network responses are
supplied by explicit oracle values standing for the `fetch` results; an
`AbortError` raised by a cancelled signal is the `aborted` oracle
outcome.  Byte buffers are `List Nat`; only their lengths matter to any
property proved here.  `activeLoops` is a ghost component tracking which
artifact ids currently have a transfer loop running (set on loop entry,
cleared by the loop's `finally`), used to reason about the lifetime of
controller-map entries.  OPFS writable-stream commit-on-close semantics
are abstracted: writes are modelled as immediately visible.
-/

namespace GeminiDM

/-- The `DownloadStatus` string union of the source. -/
inductive Status where
  | not_started
  | downloading
  | paused
  | completed
  | error
  | consolidating
deriving DecidableEq, Repr

/-- A record of the `model-meta` store.  `db.put` replaces the record
wholesale, so fields a given call omits are `none` here. -/
structure MetaRecord where
  total : Nat
  status : Status
  downloaded : Option Nat := none
  error : Option String := none
deriving DecidableEq, Repr

/-- A record of the `model-chunks` store, keyed by `[modelName, chunkIndex]`. -/
structure ChunkRec where
  modelName : String
  chunkIndex : Nat
  data : List Nat
deriving DecidableEq, Repr

/-- Persistent + in-memory state of the manager: the three IndexedDB
stores, the OPFS directory contents, the `controllers` map (as the list
of keys; the `AbortController` values are modelled by the oracles), and
the ghost set of running transfer loops. -/
structure St where
  meta : List (String × MetaRecord)
  chunks : List ChunkRec
  consolidated : List (String × List Nat)
  opfs : List (String × List Nat)
  controllers : List String
  activeLoops : List String
deriving DecidableEq, Repr

/-- Construction-time environment probe: `isOpfsSupported` is
`'getDirectory' in navigator.storage`; `opfsAvailable` is whether
`opfsRootPromise` resolved to a non-null root. -/
structure Cfg where
  isOpfsSupported : Bool
  opfsAvailable : Bool
deriving DecidableEq, Repr

def emptySt : St := ⟨[], [], [], [], [], []⟩

/-- `db.get(META_STORE, id)`. -/
def metaGet (σ : St) (id : String) : Option MetaRecord :=
  match σ.meta.find? (fun p => p.1 == id) with
  | some p => some p.2
  | none => none

/-- `db.put(META_STORE, m)` — replace the record keyed by `id`. -/
def metaPut (σ : St) (id : String) (m : MetaRecord) : St :=
  { σ with meta := (id, m) :: σ.meta.filter (fun p => !(p.1 == id)) }

/-- `db.get(CONSOLIDATED_STORE, id)`. -/
def consolidatedGet (σ : St) (id : String) : Option (List Nat) :=
  match σ.consolidated.find? (fun p => p.1 == id) with
  | some p => some p.2
  | none => none

/-- `db.put(CONSOLIDATED_STORE, {modelName, blob})`. -/
def consolidatedPut (σ : St) (id : String) (blob : List Nat) : St :=
  { σ with consolidated := (id, blob) :: σ.consolidated.filter (fun p => !(p.1 == id)) }

/-- OPFS directory lookup: the file content for `id`, if the file exists. -/
def opfsGet (σ : St) (id : String) : Option (List Nat) :=
  match σ.opfs.find? (fun p => p.1 == id) with
  | some p => some p.2
  | none => none

/-- Write/replace the OPFS file for `id`. -/
def opfsPut (σ : St) (id : String) (content : List Nat) : St :=
  { σ with opfs := (id, content) :: σ.opfs.filter (fun p => !(p.1 == id)) }

/-- All chunk records of the given artifact, in store order. -/
def chunksFor (σ : St) (id : String) : List ChunkRec :=
  σ.chunks.filter (fun c => c.modelName == id)

/-- `chunks.reduce((acc, chunk) => acc + chunk.data.byteLength, 0)`. -/
def chunkSum (σ : St) (id : String) : Nat :=
  ((chunksFor σ id).map (fun c => c.data.length)).sum

/-- The chunk indices currently stored for `id`. -/
def chunkIdxs (σ : St) (id : String) : List Nat :=
  (chunksFor σ id).map (fun c => c.chunkIndex)

/-- `db.put(CHUNKS_STORE, {modelName, chunkIndex, data})` — replaces the
record with the same `[modelName, chunkIndex]` key, if any. -/
def chunksPut (σ : St) (c : ChunkRec) : St :=
  let keep := fun (c0 : ChunkRec) =>
    !(c0.modelName == c.modelName && c0.chunkIndex == c.chunkIndex)
  { σ with chunks := c :: σ.chunks.filter keep }

/-- `_deleteChunks`: cursor over the `modelName` index deleting every
record of the artifact. -/
def deleteChunksFor (σ : St) (id : String) : St :=
  { σ with chunks := σ.chunks.filter (fun c => !(c.modelName == id)) }

/-- Insertion sort of chunk records by `chunkIndex` (IndexedDB cursors
iterate an index in primary-key order, i.e. ascending `chunkIndex`
within one `modelName`). -/
def insertByIdx (c : ChunkRec) : List ChunkRec → List ChunkRec
  | [] => [c]
  | d :: rest =>
      if c.chunkIndex ≤ d.chunkIndex then c :: d :: rest
      else d :: insertByIdx c rest

def sortByIdx : List ChunkRec → List ChunkRec
  | [] => []
  | c :: rest => insertByIdx c (sortByIdx rest)

/-- The shape of a progress object / `getStatus` result.  `percent` is a
rational; the source computes it in floating point, but every property
proved below pins it only at the exact values 0 and 100. -/
structure Progress where
  downloaded : Nat
  total : Nat
  percent : ℚ
  status : Status
  error : Option String := none
deriving DecidableEq, Repr

/-- `(downloaded / total) * 100`. -/
def pct (downloaded total : Nat) : ℚ :=
  ((downloaded : ℚ) / (total : ℚ)) * 100

/-- `total > 0 ? (downloaded / total) * 100 : 0`. -/
def pctGuard (downloaded total : Nat) : ℚ :=
  if 0 < total then pct downloaded total else 0

/-- `pauseDownload`: abort and drop the live controller for `id`, if
any.  (The effect of `abort()` on a running loop is delivered through
the network oracles as the `aborted` outcome.)  Note that this removes
the controller-map entry immediately, while the transfer loop — if one
is running — keeps running until it observes the abort. -/
def pauseDownload (σ : St) (id : String) : St :=
  if id ∈ σ.controllers then
    { σ with controllers := σ.controllers.filter (fun x => !(x == id)) }
  else σ

/-- `deleteModel`: pause, then remove the OPFS entry (when supported and
the root is available; a `NotFoundError` is swallowed), the metadata
record, the consolidated blob, and all chunks for `id`. -/
def deleteModel (cfg : Cfg) (σ : St) (id : String) : St :=
  let σ1 := pauseDownload σ id
  let σ2 :=
    if cfg.isOpfsSupported && cfg.opfsAvailable then
      { σ1 with opfs := σ1.opfs.filter (fun p => !(p.1 == id)) }
    else σ1
  let σ3 := { σ2 with meta := σ2.meta.filter (fun p => !(p.1 == id)) }
  let σ4 := { σ3 with consolidated := σ3.consolidated.filter (fun p => !(p.1 == id)) }
  { σ4 with chunks := σ4.chunks.filter (fun c => !(c.modelName == id)) }

/-- `getStatus`. -/
def getStatus (cfg : Cfg) (σ : St) (id : String) : Progress :=
  match metaGet σ id with
  | none => ⟨0, 0, 0, .not_started, none⟩
  | some m =>
      let total := m.total
      if m.status = .completed then
        ⟨total, total, 100, .completed, none⟩
      else
        let downloaded :=
          if cfg.isOpfsSupported then
            match if cfg.opfsAvailable then opfsGet σ id else none with
            | some f => f.length
            | none => 0
          else chunkSum σ id
        ⟨downloaded, total, pctGuard downloaded total, m.status, m.error⟩

/-- `getModelFromChunksAsStream`: `null` when no chunk record exists for
`id`; otherwise the chunks concatenated in index order, unless building
the blob from the stream fails (`blobFail` oracle — the `catch` around
`new Response(stream).blob()`). -/
def getModelFromChunksAsStream (σ : St) (id : String) (blobFail : Bool) :
    Option (List Nat) :=
  if chunksFor σ id = [] then none
  else if blobFail then none
  else some (((sortByIdx (chunksFor σ id)).map (fun c => c.data)).flatten)

/-- `getModelAsBlob`.  Non-`completed` status short-circuits to `null`.
On the OPFS path, a present file is returned only when its size equals
`meta.total` (`null` on mismatch — no fallthrough); an absent file or
unavailable root falls through to the consolidated store and then to
chunk reconstruction. -/
def getModelAsBlob (cfg : Cfg) (σ : St) (id : String) (blobFail : Bool) :
    Option (List Nat) :=
  match metaGet σ id with
  | none => none
  | some m =>
      if m.status = .completed then
        let viaOpfs : Option (Option (List Nat)) :=
          if cfg.isOpfsSupported && cfg.opfsAvailable then
            match opfsGet σ id with
            | some f => some (if f.length = m.total then some f else none)
            | none => none
          else none
        match viaOpfs with
        | some r => r
        | none =>
            match consolidatedGet σ id with
            | some b => some b
            | none => getModelFromChunksAsStream σ id blobFail
      else none

/-! ## Transfer engine -/

/-- Outcome classification of a caught exception, mirroring
`handleDownloadError`'s test for `DOMException`/`AbortError`. -/
inductive Failure where
  | aborted
  | message (msg : String)
deriving DecidableEq, Repr

/-- Oracle for one HEAD request.  `ok cl` carries
`Number(headers.get(Content-Length))`, with `0` standing for a missing,
zero, or non-numeric header (all three take the same throw branch). -/
inductive HeadResult where
  | aborted
  | notOk (code : Nat)
  | ok (contentLength : Nat)
deriving DecidableEq, Repr

/-- Oracle for the single streaming GET of the OPFS path.  `ok bufs
abortDuring` delivers the buffers in order; when `abortDuring` is true
the read following the last buffer raises `AbortError`. -/
inductive GetResult where
  | aborted
  | notOk (code : Nat)
  | ok (bufs : List (List Nat)) (abortDuring : Bool)
deriving DecidableEq, Repr

structure OpfsOracle where
  head : HeadResult
  get : GetResult
deriving DecidableEq, Repr

/-- Observable outcome of one OPFS transfer attempt.  `err` is the
exception (if any) that reached the `catch` block; `rangeStart` records
the offset of the `Range: bytes=<n>-` header of the GET, when one was
issued. -/
structure RunOut where
  st : St
  downloaded : Nat
  total : Nat
  err : Option Failure
  rangeStart : Option Nat
  events : List Progress
deriving DecidableEq, Repr

/-- The read/write loop over the response body: each buffer is written
at the current position (the writable was positioned at the initial
`downloaded` by `seek`), `downloaded` advances, and a progress event is
emitted. -/
def streamLoop (content : List Nat) (downloaded total : Nat) :
    List (List Nat) → List Nat × Nat × List Progress
  | [] => (content, downloaded, [])
  | b :: rest =>
      let content1 := content.take downloaded ++ b ++ content.drop (downloaded + b.length)
      let d1 := downloaded + b.length
      let ev : Progress := ⟨d1, total, pct d1 total, .downloading, none⟩
      let r := streamLoop content1 d1 total rest
      (r.1, r.2.1, ev :: r.2.2)

/-- The tail after streaming (or after skipping the GET because nothing
is missing): re-measure the file; on size mismatch throw, otherwise
persist `completed` and emit the final 100% event. -/
def opfsFinalize (σ : St) (id : String) (d total : Nat) (evs : List Progress)
    (rs : Option Nat) : RunOut :=
  let fs := ((opfsGet σ id).getD []).length
  if fs ≠ total then
    { st := σ, downloaded := d, total := total,
      err := some (.message s!"Final file size {fs} does not match expected size {total}"),
      rangeStart := rs, events := evs }
  else
    { st := metaPut σ id ⟨total, .completed, none, none⟩,
      downloaded := d, total := total, err := none, rangeStart := rs,
      events := evs ++ [⟨total, total, 100, .completed, none⟩] }

/-- The ranged GET (`Range: bytes=<downloaded>-`) and its read/write
loop. -/
def opfsStream (σ2 : St) (id : String) (get : GetResult)
    (downloaded total : Nat) (content : List Nat) (ev0 : Progress) : RunOut :=
  match get with
  | .aborted =>
      ⟨σ2, downloaded, total, some .aborted, some downloaded, [ev0]⟩
  | .notOk code =>
      ⟨σ2, downloaded, total,
        some (.message s!"Download request failed. Status: {code}"),
        some downloaded, [ev0]⟩
  | .ok bufs abortDuring =>
      let r := streamLoop content downloaded total bufs
      let σ3 := opfsPut σ2 id r.1
      if abortDuring then
        ⟨σ3, r.2.1, total, some .aborted, some downloaded, ev0 :: r.2.2⟩
      else opfsFinalize σ3 id r.2.1 total (ev0 :: r.2.2) (some downloaded)

/-- Tail of the OPFS body after `downloaded`/`total` are settled:
persist `downloading`, emit progress, fetch the range if needed, stream
it, then finalize. -/
def opfsTransfer (σ1 : St) (id : String) (get : GetResult)
    (downloaded total : Nat) (content : List Nat) : RunOut :=
  let σ2 := metaPut σ1 id ⟨total, .downloading, none, none⟩
  let ev0 : Progress := ⟨downloaded, total, pctGuard downloaded total, .downloading, none⟩
  if downloaded < total then opfsStream σ2 id get downloaded total content ev0
  else opfsFinalize σ2 id downloaded total [ev0] none

/-- Resume sizing: with resume requested and a known positive metadata
total, read the current file size as `downloaded`, restarting from 0
when the file is at least total-sized (treated as corrupt); otherwise
both stay 0 (total to be learned from the HEAD request). -/
def opfsSizing (isResume : Bool) (meta : Option MetaRecord)
    (content : List Nat) : Nat × Nat :=
  match meta with
  | some m =>
      if isResume ∧ 0 < m.total then
        (if m.total ≤ content.length then 0 else content.length, m.total)
      else (0, 0)
  | none => (0, 0)

/-- The HEAD request issued when the total is unknown: throws on a
non-ok response or a missing/zero Content-Length, otherwise transfers
from offset 0. -/
def opfsHead (σ1 : St) (id : String) (oracle : OpfsOracle)
    (content : List Nat) : RunOut :=
  match oracle.head with
  | .aborted => ⟨σ1, 0, 0, some .aborted, none, []⟩
  | .notOk code =>
      ⟨σ1, 0, 0, some (.message s!"Failed to get model info. Status: {code}"),
        none, []⟩
  | .ok cl =>
      if cl = 0 then
        ⟨σ1, 0, 0, some (.message "Could not determine file size."), none, []⟩
      else opfsTransfer σ1 id oracle.get 0 cl content

/-- The `try`-body of `runOpfsDownload`: root access, file open
(create-if-absent), resume sizing, HEAD when the total is unknown, then
`opfsTransfer`. -/
def opfsBody (cfg : Cfg) (σ0 : St) (id : String) (oracle : OpfsOracle)
    (isResume : Bool) : RunOut :=
  if cfg.opfsAvailable = false then
    ⟨σ0, 0, 0, some (.message "Could not access OPFS."), none, []⟩
  else
    let σ1 := if (opfsGet σ0 id).isSome then σ0 else opfsPut σ0 id []
    let content := (opfsGet σ1 id).getD []
    let sizing := opfsSizing isResume (metaGet σ1 id) content
    if sizing.2 = 0 then opfsHead σ1 id oracle content
    else opfsTransfer σ1 id oracle.get sizing.1 sizing.2 content

/-- `handleDownloadError`: an `AbortError` persists
`{modelName, total, status: paused, downloaded}` (no error message);
anything else persists `{modelName, status: error, error, total}`. -/
def handleDownloadError (σ : St) (id : String) (f : Failure)
    (downloaded total : Nat) : St × Progress :=
  match f with
  | .aborted =>
      (metaPut σ id ⟨total, .paused, some downloaded, none⟩,
        ⟨downloaded, total, pctGuard downloaded total, .paused, none⟩)
  | .message msg =>
      (metaPut σ id ⟨total, .error, none, some msg⟩,
        ⟨downloaded, total, pctGuard downloaded total, .error, some msg⟩)

/-- Register this run's controller in the map and (ghost) mark the loop
as running.  `Map.set` replaces any previous entry. -/
def ctrlAdd (σ : St) (id : String) : St :=
  { σ with controllers := id :: σ.controllers.filter (fun x => !(x == id)),
           activeLoops := id :: σ.activeLoops.filter (fun x => !(x == id)) }

/-- The loop's `finally`: drop the controller entry; (ghost) the loop
has terminated. -/
def ctrlRemove (σ : St) (id : String) : St :=
  { σ with controllers := σ.controllers.filter (fun x => !(x == id)),
           activeLoops := σ.activeLoops.filter (fun x => !(x == id)) }

/-- The progress object reported when `hfApiKey` is empty. -/
def authFailEvent : Progress :=
  ⟨0, 0, 0, .error, some "Hugging Face API Key is required."⟩

/-- `catch` + `finally` of `runOpfsDownload`: a caught failure goes
through `handleDownloadError`; the controller entry is dropped either
way. -/
def opfsFinish (out : RunOut) (id : String) : RunOut :=
  match out.err with
  | none => { out with st := ctrlRemove out.st id }
  | some f =>
      let r := handleDownloadError out.st id f out.downloaded out.total
      { out with st := ctrlRemove r.1 id, events := out.events ++ [r.2] }

/-- `runOpfsDownload`: auth precheck (reports via the callback only and
returns — nothing persisted), controller registration, the `try`-body,
then catch/finally. -/
def runOpfsDownload (cfg : Cfg) (σ : St) (id url hfApiKey : String)
    (oracle : OpfsOracle) (isResume : Bool) : RunOut :=
  if hfApiKey = "" then
    ⟨σ, 0, 0, none, none, [authFailEvent]⟩
  else opfsFinish (opfsBody cfg (ctrlAdd σ id) id oracle isResume) id

/-! ## Chunk-backend transfer -/

/-- Oracle for one ranged chunk GET. -/
inductive ChunkFetch where
  | aborted
  | notOk (code : Nat)
  | ok (data : List Nat)
deriving DecidableEq, Repr

/-- How the `while (downloaded < total)` loop ended.  `stalled` is a
model artifact: the oracle script ran out while the condition still
held (the source loop would keep fetching). -/
inductive LoopExit where
  | done
  | failed (f : Failure)
  | stalled
deriving DecidableEq, Repr

structure IdbLoopOut where
  st : St
  downloaded : Nat
  chunkIndex : Nat
  exit : LoopExit
  events : List Progress
deriving DecidableEq, Repr

/-- The chunk loop: fetch `Range: bytes=<downloaded>-<end>`, persist the
returned buffer as chunk `chunkIndex`, advance `downloaded` by its
actual length, increment `chunkIndex`, emit progress. -/
def idbLoop (σ : St) (id : String) (downloaded total chunkIndex : Nat) :
    List ChunkFetch → IdbLoopOut
  | [] =>
      if downloaded < total then ⟨σ, downloaded, chunkIndex, .stalled, []⟩
      else ⟨σ, downloaded, chunkIndex, .done, []⟩
  | f :: rest =>
      if downloaded < total then
        match f with
        | .aborted => ⟨σ, downloaded, chunkIndex, .failed .aborted, []⟩
        | .notOk code =>
            ⟨σ, downloaded, chunkIndex,
              .failed (.message s!"Chunk download failed. Status: {code}"), []⟩
        | .ok data =>
            let σ1 := chunksPut σ ⟨id, chunkIndex, data⟩
            let d1 := downloaded + data.length
            let ev : Progress := ⟨d1, total, pct d1 total, .downloading, none⟩
            let r := idbLoop σ1 id d1 total (chunkIndex + 1) rest
            ⟨r.st, r.downloaded, r.chunkIndex, r.exit, ev :: r.events⟩
      else ⟨σ, downloaded, chunkIndex, .done, []⟩

/-- Storage oracle for `_consolidateModel`: whether building the blob
from the chunk stream fails, and whether storing the consolidated blob
fails. -/
structure ConsOracle where
  blobFail : Bool
  putFail : Bool
deriving DecidableEq, Repr

inductive ConsOutcome where
  | noMeta
  | ok
  | failed (msg : String)
deriving DecidableEq, Repr

structure ConsOut where
  st : St
  outcome : ConsOutcome
  events : List Progress
deriving DecidableEq, Repr

/-- `_consolidateModel`: reconstruct the blob from the chunks, store it,
delete the chunks, persist `completed`; any failure is caught locally
and persists `error` with a message, touching nothing else. -/
def consolidateModel (σ : St) (id : String) (oc : ConsOracle) : ConsOut :=
  match metaGet σ id with
  | none => ⟨σ, .noMeta, []⟩
  | some m =>
      let total := m.total
      let downloaded :=
        match m.downloaded with
        | some d => if d = 0 then total else d
        | none => total
      let ev0 : Progress := ⟨downloaded, total, 100, .consolidating, none⟩
      let fail := fun (msg : String) =>
        ({ st := metaPut σ id ⟨total, .error, none, some msg⟩,
           outcome := .failed msg,
           events := [ev0, ⟨downloaded, total, pct downloaded total, .error,
             some ("Consolidation failed: " ++ msg)⟩] } : ConsOut)
      match getModelFromChunksAsStream σ id oc.blobFail with
      | none => fail "Failed to reconstruct model from chunks."
      | some blob =>
          if oc.putFail then fail "Failed to store consolidated model."
          else
            let σ1 := consolidatedPut σ id blob
            let σ2 := deleteChunksFor σ1 id
            ⟨metaPut σ2 id ⟨total, .completed, some total, none⟩, .ok,
              [ev0, ⟨total, total, 100, .completed, none⟩]⟩

structure IdbOracle where
  head : HeadResult
  gets : List ChunkFetch
  cons : ConsOracle
deriving DecidableEq, Repr

/-- Observable outcome of one chunk-backend transfer attempt. -/
structure IdbOut where
  st : St
  downloaded : Nat
  total : Nat
  err : Option Failure
  stalled : Bool
  consOutcome : Option ConsOutcome
  events : List Progress
deriving DecidableEq, Repr

/-- Shared tail of both `runIdbDownload` bodies once `downloaded`,
`total` and `chunkIndex` are settled: persist `downloading`, run the
chunk loop, and on normal loop exit consolidate. -/
def idbAfterHead (σ : St) (id : String) (oracle : IdbOracle)
    (downloaded total chunkIndex : Nat) : IdbOut :=
  let σ1 := metaPut σ id ⟨total, .downloading, none, none⟩
  let r := idbLoop σ1 id downloaded total chunkIndex oracle.gets
  match r.exit with
  | .stalled => ⟨r.st, r.downloaded, total, none, true, none, r.events⟩
  | .failed f => ⟨r.st, r.downloaded, total, some f, false, none, r.events⟩
  | .done =>
      let c := consolidateModel r.st id oracle.cons
      ⟨c.st, r.downloaded, total, none, false, some c.outcome, r.events ++ c.events⟩

/-- A `fetch` whose signal has already been aborted rejects immediately
with `AbortError`, regardless of the network. -/
def fetchHead (signalAborted : Bool) (h : HeadResult) : HeadResult :=
  if signalAborted then .aborted else h

/-- Fresh-start `try`-body of `runIdbDownload`.  Note: the body begins
with `deleteModel`, and `deleteModel` calls `pauseDownload`, which finds
this run's own just-registered controller, aborts it, and removes its
map entry; the HEAD `fetch` that follows carries the now-aborted signal
and rejects immediately with `AbortError`, so this body always exits
through the abort path without reaching the network. -/
def idbFreshBody (cfg : Cfg) (σ : St) (id : String) (oracle : IdbOracle) : IdbOut :=
  let selfAborted := decide (id ∈ σ.controllers)
  let σ1 := deleteModel cfg σ id
  match fetchHead selfAborted oracle.head with
  | .aborted => ⟨σ1, 0, 0, some .aborted, false, none, []⟩
  | .notOk code =>
      ⟨σ1, 0, 0, some (.message s!"Failed to get model info. Status: {code}"),
        false, none, []⟩
  | .ok cl =>
      if cl = 0 then
        ⟨σ1, 0, 0, some (.message "Could not determine file size."), false, none, []⟩
      else idbAfterHead σ1 id oracle 0 cl 0

/-- `catch` + `finally` of `runIdbDownload`. -/
def idbFinish (out : IdbOut) (id : String) : IdbOut :=
  match out.err with
  | none => { out with st := ctrlRemove out.st id }
  | some f =>
      let r := handleDownloadError out.st id f out.downloaded out.total
      { out with st := ctrlRemove r.1 id, events := out.events ++ [r.2] }

/-- `runIdbDownload` with `isResume = false`: auth precheck, controller
registration, fresh body, catch/finally. -/
def runIdbDownloadFresh (cfg : Cfg) (σ : St) (id hfApiKey : String)
    (oracle : IdbOracle) : IdbOut :=
  if hfApiKey = "" then ⟨σ, 0, 0, none, false, none, [authFailEvent]⟩
  else idbFinish (idbFreshBody cfg (ctrlAdd σ id) id oracle) id

/-- `runIdbDownload`.  On resume with no metadata (or zero total) it
re-enters itself as a fresh download; the outer `finally` still runs
afterwards. -/
def runIdbDownload (cfg : Cfg) (σ : St) (id hfApiKey : String)
    (oracle : IdbOracle) (isResume : Bool) : IdbOut :=
  if isResume = false then runIdbDownloadFresh cfg σ id hfApiKey oracle
  else if hfApiKey = "" then ⟨σ, 0, 0, none, false, none, [authFailEvent]⟩
  else
    let σ1 := ctrlAdd σ id
    let fallback := fun (_ : Unit) =>
      let inner := runIdbDownloadFresh cfg σ1 id hfApiKey oracle
      { inner with st := ctrlRemove inner.st id }
    match metaGet σ1 id with
    | none => fallback ()
    | some m =>
        if m.total = 0 then fallback ()
        else
          idbFinish
            (idbAfterHead σ1 id oracle (chunkSum σ1 id) m.total
              ((chunksFor σ1 id).length)) id

/-! ## Public operations -/

/-- `startDownload`: a live controller entry for `id` makes the call a
warn-and-return no-op; otherwise the backend chosen at construction
runs a fresh transfer. -/
def startDownload (cfg : Cfg) (σ : St) (id url hfApiKey : String)
    (opfsOracle : OpfsOracle) (idbOracle : IdbOracle) : St × List Progress :=
  if id ∈ σ.controllers then (σ, [])
  else if cfg.isOpfsSupported then
    let r := runOpfsDownload cfg σ id url hfApiKey opfsOracle false
    (r.st, r.events)
  else
    let r := runIdbDownload cfg σ id hfApiKey idbOracle false
    (r.st, r.events)

/-- `resumeDownload`: same guard, resuming transfer. -/
def resumeDownload (cfg : Cfg) (σ : St) (id url hfApiKey : String)
    (opfsOracle : OpfsOracle) (idbOracle : IdbOracle) : St × List Progress :=
  if id ∈ σ.controllers then (σ, [])
  else if cfg.isOpfsSupported then
    let r := runOpfsDownload cfg σ id url hfApiKey opfsOracle true
    (r.st, r.events)
  else
    let r := runIdbDownload cfg σ id hfApiKey idbOracle true
    (r.st, r.events)

/-! ## Helper lemmas -/

lemma St.extEq (σ1 σ2 : St) (h1 : σ1.meta = σ2.meta) (h2 : σ1.chunks = σ2.chunks)
    (h3 : σ1.consolidated = σ2.consolidated) (h4 : σ1.opfs = σ2.opfs)
    (h5 : σ1.controllers = σ2.controllers) (h6 : σ1.activeLoops = σ2.activeLoops) :
    σ1 = σ2 := by
  cases σ1; cases σ2
  cases h1; cases h2; cases h3; cases h4; cases h5; cases h6
  rfl

lemma not_mem_filter_beq (l : List String) (id : String) :
    id ∉ l.filter (fun x => !(x == id)) := by
  intro h
  rcases List.mem_filter.mp h with ⟨-, hp⟩
  simp at hp

lemma ctrlRemove_not_mem (σ : St) (id : String) :
    id ∉ (ctrlRemove σ id).controllers :=
  not_mem_filter_beq _ _

lemma opfsFinish_controllers_not_mem (out : RunOut) (id : String) :
    id ∉ (opfsFinish out id).st.controllers := by
  cases hE : out.err <;> simp [opfsFinish, hE] <;> exact ctrlRemove_not_mem _ _

lemma runOpfsDownload_controllers_not_mem (cfg : Cfg) (σ : St)
    (id url hfApiKey : String) (oo : OpfsOracle) (isResume : Bool)
    (h : id ∉ σ.controllers) :
    id ∉ (runOpfsDownload cfg σ id url hfApiKey oo isResume).st.controllers := by
  by_cases hkey : hfApiKey = ""
  · simp only [runOpfsDownload, if_pos hkey]
    exact h
  · simp only [runOpfsDownload, if_neg hkey]
    exact opfsFinish_controllers_not_mem _ _

lemma idbFinish_controllers_not_mem (out : IdbOut) (id : String) :
    id ∉ (idbFinish out id).st.controllers := by
  cases hE : out.err <;> simp [idbFinish, hE] <;> exact ctrlRemove_not_mem _ _

lemma runIdbDownload_controllers_not_mem (cfg : Cfg) (σ : St)
    (id hfApiKey : String) (io : IdbOracle) (isResume : Bool)
    (h : id ∉ σ.controllers) :
    id ∉ (runIdbDownload cfg σ id hfApiKey io isResume).st.controllers := by
  have hfresh : ∀ σ1 : St, id ∉ σ1.controllers →
      id ∉ (runIdbDownloadFresh cfg σ1 id hfApiKey io).st.controllers := by
    intro σ1 h1
    by_cases hkey : hfApiKey = ""
    · simp only [runIdbDownloadFresh, if_pos hkey]
      exact h1
    · simp only [runIdbDownloadFresh, if_neg hkey]
      exact idbFinish_controllers_not_mem _ _
  cases isResume with
  | false => exact hfresh σ h
  | true =>
      by_cases hkey : hfApiKey = ""
      · simp only [runIdbDownload, if_pos hkey, Bool.true_eq_false, if_false]
        exact h
      · simp only [runIdbDownload, Bool.true_eq_false, if_false, if_neg hkey]
        cases hm : metaGet (ctrlAdd σ id) id with
        | none => simp [hm]; exact ctrlRemove_not_mem _ _
        | some m =>
            by_cases ht : m.total = 0
            · simp [hm, ht]; exact ctrlRemove_not_mem _ _
            · simp [hm, ht]; exact idbFinish_controllers_not_mem _ _

lemma filter_twice {α : Type _} (p : α → Bool) (l : List α) :
    (l.filter p).filter p = l.filter p := by
  induction l with
  | nil => rfl
  | cons a l ih => by_cases h : p a <;> simp [List.filter_cons, h, ih]

lemma find?_none_filter_self {α : Type _} (p : α → Bool) (l : List α)
    (h : l.find? p = none) : l.filter (fun a => !(p a)) = l := by
  rw [List.filter_eq_self]
  intro a ha
  have hp := List.find?_eq_none.mp h a ha
  simp only [Bool.not_eq_true] at hp
  simp [hp]

lemma metaGet_eq_none_iff (σ : St) (id : String) :
    metaGet σ id = none ↔ σ.meta.find? (fun p => p.1 == id) = none := by
  unfold metaGet
  cases σ.meta.find? (fun p => p.1 == id) <;> simp

lemma consolidatedGet_eq_none_iff (σ : St) (id : String) :
    consolidatedGet σ id = none ↔ σ.consolidated.find? (fun p => p.1 == id) = none := by
  unfold consolidatedGet
  cases σ.consolidated.find? (fun p => p.1 == id) <;> simp

lemma opfsGet_eq_none_iff (σ : St) (id : String) :
    opfsGet σ id = none ↔ σ.opfs.find? (fun p => p.1 == id) = none := by
  unfold opfsGet
  cases σ.opfs.find? (fun p => p.1 == id) <;> simp

/-! ## Concrete states and oracles used by counterexamples and witnesses -/

def cfgOpfs : Cfg := ⟨true, true⟩
def cfgIdb : Cfg := ⟨false, false⟩

/-- A state whose metadata says `completed` with `total = 10` but whose
consolidated blob has only 5 bytes (reachable when the consolidated
record was written by an earlier, differently-sized download, or the
chunk data was tampered with between runs). -/
def szMismatchSt : St :=
  ⟨[("m", ⟨10, .completed, none, none⟩)], [], [("m", [0, 0, 0, 0, 0])], [], [], []⟩

/-- A state in the middle of a transfer: the loop for `"m"` is running
and its controller is registered. -/
def midTransferSt : St := ⟨[], [], [], [], ["m"], ["m"]⟩

/-- A state with one completed OPFS artifact of 3 bytes. -/
def opfsDoneSt : St :=
  ⟨[("m", ⟨3, .completed, none, none⟩)], [], [], [("m", [1, 2, 3])], [], []⟩

def oo0 : OpfsOracle := ⟨.ok 1, .ok [] false⟩
def io0 : IdbOracle := ⟨.ok 1, [], ⟨false, false⟩⟩

/-! ## C1 -/

/-- C1 counterexample: with metadata `completed, total = 10` and a
5-byte consolidated blob on the chunk backend, `getModelAsBlob` returns
the blob even though its measured length differs from `totalBytes`,
contradicting the claim that every such case returns null. -/
theorem getModelAsBlob_chunk_path_skips_size_check :
    metaGet szMismatchSt "m" = some ⟨10, .completed, none, none⟩ ∧
    getModelAsBlob cfgIdb szMismatchSt "m" false = some [0, 0, 0, 0, 0] ∧
    ([0, 0, 0, 0, 0] : List Nat).length ≠ 10 := by
  refine ⟨rfl, rfl, by decide⟩

/-- C1 (amended): `getModelAsBlob` is non-null only when the persisted
status is `completed`; on the OPFS file path with the file present, it
returns the file exactly when the measured size equals `totalBytes` and
null otherwise; the consolidated-blob and chunk-reconstruction paths
perform no size check. -/
theorem getModelAsBlob_completed_only_opfs_size_checked
    (cfg : Cfg) (σ : St) (id : String) (blobFail : Bool) :
    (∀ b, getModelAsBlob cfg σ id blobFail = some b →
      ∃ m, metaGet σ id = some m ∧ m.status = .completed) ∧
    (∀ m f, metaGet σ id = some m → m.status = .completed →
      cfg.isOpfsSupported = true → cfg.opfsAvailable = true →
      opfsGet σ id = some f →
      getModelAsBlob cfg σ id blobFail =
        if f.length = m.total then some f else none) := by
  constructor
  · intro b hb
    unfold getModelAsBlob at hb
    cases h : metaGet σ id with
    | none => rw [h] at hb; exact absurd hb (by simp)
    | some m =>
        rw [h] at hb
        by_cases hs : m.status = .completed
        · exact ⟨m, rfl, hs⟩
        · simp [hs] at hb
  · intro m f hm hs hsup hav hf
    simp [getModelAsBlob, hm, hs, hsup, hav, hf]

/-- C1 witness: the amended theorem applied at a completed 3-byte OPFS
artifact. -/
theorem getModelAsBlob_completed_only_opfs_size_checked_inst :
    getModelAsBlob cfgOpfs opfsDoneSt "m" false =
      if ([1, 2, 3] : List Nat).length = 3 then some [1, 2, 3] else none :=
  (getModelAsBlob_completed_only_opfs_size_checked cfgOpfs opfsDoneSt "m" false).2
    ⟨3, .completed, none, none⟩ [1, 2, 3] rfl rfl rfl rfl rfl

/-! ## C4 -/

/-- C4 counterexample: on a state whose transfer loop for `"m"` is
running, `pauseDownload` removes the controller-map entry immediately —
before the loop terminates (the ghost `activeLoops` still holds `"m"`)
— contradicting the claim that the entry is removed only when the
transfer loop terminates. -/
theorem pauseDownload_removes_entry_before_loop_ends :
    (pauseDownload midTransferSt "m").controllers = [] ∧
    (pauseDownload midTransferSt "m").activeLoops = ["m"] := by
  constructor <;> rfl

/-- C4 (amended): `startDownload` while a live token for the same id
exists is a no-op launching no second transfer; the token-map entry is
absent after `pauseDownload` (which removes it eagerly) and after any
transfer run started without a live token (the loop's `finally`). -/
theorem startDownload_single_transfer (cfg : Cfg) (σ : St)
    (id url hfApiKey : String) (oo : OpfsOracle) (io : IdbOracle) :
    (id ∈ σ.controllers →
      startDownload cfg σ id url hfApiKey oo io = (σ, [])) ∧
    (id ∉ (pauseDownload σ id).controllers) ∧
    (id ∉ σ.controllers →
      id ∉ (startDownload cfg σ id url hfApiKey oo io).1.controllers) := by
  refine ⟨fun h => by simp [startDownload, h], ?_, fun h => ?_⟩
  · unfold pauseDownload
    split_ifs with hmem
    · exact not_mem_filter_beq _ _
    · exact hmem
  · unfold startDownload
    rw [if_neg h]
    by_cases hsup : cfg.isOpfsSupported
    · rw [if_pos hsup]
      exact runOpfsDownload_controllers_not_mem cfg σ id url hfApiKey oo false h
    · rw [if_neg hsup]
      exact runIdbDownload_controllers_not_mem cfg σ id hfApiKey io false h

/-- C4 witness: the amended theorem's no-op branch at a concrete
mid-transfer state. -/
theorem startDownload_single_transfer_inst :
    startDownload cfgOpfs midTransferSt "m" "u" "k" oo0 io0 = (midTransferSt, []) :=
  (startDownload_single_transfer cfgOpfs midTransferSt "m" "u" "k" oo0 io0).1
    (by decide)

/-! ## Failure-path metadata lemmas (C2, C5) -/

/-- The exact metadata record `handleDownloadError` persists for a
caught failure. -/
def failureRecord (f : Failure) (downloaded total : Nat) : MetaRecord :=
  match f with
  | .aborted => ⟨total, .paused, some downloaded, none⟩
  | .message msg => ⟨total, .error, none, some msg⟩

lemma metaGet_metaPut (σ : St) (id : String) (m : MetaRecord) :
    metaGet (metaPut σ id m) id = some m := by
  simp [metaGet, metaPut]

lemma metaGet_ctrlRemove (σ : St) (id j : String) :
    metaGet (ctrlRemove σ id) j = metaGet σ j := rfl

lemma handleDownloadError_meta (σ : St) (id : String) (f : Failure) (d t : Nat) :
    metaGet (handleDownloadError σ id f d t).1 id = some (failureRecord f d t) := by
  cases f <;> simp [handleDownloadError, failureRecord, metaGet_metaPut]

lemma opfsFinish_err_meta (out : RunOut) (id : String) (f : Failure)
    (hf : (opfsFinish out id).err = some f) :
    metaGet (opfsFinish out id).st id =
      some (failureRecord f (opfsFinish out id).downloaded
        (opfsFinish out id).total) := by
  cases hE : out.err with
  | none => simp [opfsFinish, hE] at hf
  | some f0 =>
      simp only [opfsFinish, hE] at hf ⊢
      simp at hf
      subst hf
      rw [metaGet_ctrlRemove]
      exact handleDownloadError_meta _ _ _ _ _

lemma runOpfs_err_meta (cfg : Cfg) (σ : St) (id url hfApiKey : String)
    (oo : OpfsOracle) (isResume : Bool) (hkey : hfApiKey ≠ "") (f : Failure)
    (hf : (runOpfsDownload cfg σ id url hfApiKey oo isResume).err = some f) :
    metaGet (runOpfsDownload cfg σ id url hfApiKey oo isResume).st id =
      some (failureRecord f
        (runOpfsDownload cfg σ id url hfApiKey oo isResume).downloaded
        (runOpfsDownload cfg σ id url hfApiKey oo isResume).total) := by
  simp only [runOpfsDownload, if_neg hkey] at hf ⊢
  exact opfsFinish_err_meta _ _ f hf

lemma idbFinish_err_meta (out : IdbOut) (id : String) (f : Failure)
    (hf : (idbFinish out id).err = some f) :
    metaGet (idbFinish out id).st id =
      some (failureRecord f (idbFinish out id).downloaded
        (idbFinish out id).total) := by
  cases hE : out.err with
  | none => simp [idbFinish, hE] at hf
  | some f0 =>
      simp only [idbFinish, hE] at hf ⊢
      simp at hf
      subst hf
      rw [metaGet_ctrlRemove]
      exact handleDownloadError_meta _ _ _ _ _

lemma runIdbFresh_err_meta (cfg : Cfg) (σ : St) (id hfApiKey : String)
    (io : IdbOracle) (hkey : hfApiKey ≠ "") (f : Failure)
    (hf : (runIdbDownloadFresh cfg σ id hfApiKey io).err = some f) :
    metaGet (runIdbDownloadFresh cfg σ id hfApiKey io).st id =
      some (failureRecord f (runIdbDownloadFresh cfg σ id hfApiKey io).downloaded
        (runIdbDownloadFresh cfg σ id hfApiKey io).total) := by
  simp only [runIdbDownloadFresh, if_neg hkey] at hf ⊢
  exact idbFinish_err_meta _ _ f hf

lemma runIdb_err_meta (cfg : Cfg) (σ : St) (id hfApiKey : String)
    (io : IdbOracle) (isResume : Bool) (hkey : hfApiKey ≠ "") (f : Failure)
    (hf : (runIdbDownload cfg σ id hfApiKey io isResume).err = some f) :
    metaGet (runIdbDownload cfg σ id hfApiKey io isResume).st id =
      some (failureRecord f (runIdbDownload cfg σ id hfApiKey io isResume).downloaded
        (runIdbDownload cfg σ id hfApiKey io isResume).total) := by
  cases isResume with
  | false =>
      simp only [runIdbDownload, if_pos rfl] at hf ⊢
      exact runIdbFresh_err_meta cfg σ id hfApiKey io hkey f hf
  | true =>
      simp only [runIdbDownload, Bool.true_eq_false, if_false, if_neg hkey] at hf ⊢
      cases hm : metaGet (ctrlAdd σ id) id with
      | none =>
          rw [hm] at hf
          simp only [] at hf ⊢
          rw [metaGet_ctrlRemove]
          apply runIdbFresh_err_meta cfg _ id hfApiKey io hkey f
          simpa using hf
      | some m =>
          rw [hm] at hf
          by_cases ht : m.total = 0
          · simp only [if_pos ht] at hf ⊢
            rw [metaGet_ctrlRemove]
            apply runIdbFresh_err_meta cfg _ id hfApiKey io hkey f
            simpa using hf
          · simp only [if_neg ht] at hf ⊢
            exact idbFinish_err_meta _ _ f hf

/-! ## C2 -/

/-- C2 counterexample: starting a download with an empty auth token is
a failing attempt (the progress callback reports `error`), yet the
operation returns with no metadata record written for the id,
contradicting the claim that every failure path updates persisted
metadata before returning. -/
theorem missing_auth_writes_no_metadata :
    (startDownload cfgOpfs emptySt "m" "u" "" oo0 io0).2 = [authFailEvent] ∧
    metaGet (startDownload cfgOpfs emptySt "m" "u" "" oo0 io0).1 "m" = none := by
  exact ⟨rfl, rfl⟩

/-- C2 (amended): with a non-empty auth token, every failure that
reaches the transfer body's catch handler — HTTP non-2xx, missing
Content-Length, size mismatch, storage failure, cancellation — persists
the corresponding metadata record (`error` with a message, `paused` for
cancellation) for the artifactId before the operation returns, on both
backends; the empty-auth-token precheck alone reports through the
progress callback without persisting anything. -/
theorem failure_paths_persist_metadata (cfg : Cfg) (σ : St)
    (id url hfApiKey : String) (oo : OpfsOracle) (io : IdbOracle)
    (isResume : Bool) (hkey : hfApiKey ≠ "") :
    (∀ f, (runOpfsDownload cfg σ id url hfApiKey oo isResume).err = some f →
      metaGet (runOpfsDownload cfg σ id url hfApiKey oo isResume).st id =
        some (failureRecord f
          (runOpfsDownload cfg σ id url hfApiKey oo isResume).downloaded
          (runOpfsDownload cfg σ id url hfApiKey oo isResume).total)) ∧
    (∀ f, (runIdbDownload cfg σ id hfApiKey io isResume).err = some f →
      metaGet (runIdbDownload cfg σ id hfApiKey io isResume).st id =
        some (failureRecord f
          (runIdbDownload cfg σ id hfApiKey io isResume).downloaded
          (runIdbDownload cfg σ id hfApiKey io isResume).total)) :=
  ⟨fun f hf => runOpfs_err_meta cfg σ id url hfApiKey oo isResume hkey f hf,
   fun f hf => runIdb_err_meta cfg σ id hfApiKey io isResume hkey f hf⟩

/-- C2 witness: a failed HEAD (HTTP 404) on the OPFS backend leaves an
`error` metadata record. -/
theorem failure_paths_persist_metadata_inst :
    metaGet (runOpfsDownload cfgOpfs emptySt "m" "u" "k" ⟨.notOk 404, .ok [] false⟩ false).st "m" =
      some (failureRecord (.message "Failed to get model info. Status: 404")
        (runOpfsDownload cfgOpfs emptySt "m" "u" "k" ⟨.notOk 404, .ok [] false⟩ false).downloaded
        (runOpfsDownload cfgOpfs emptySt "m" "u" "k" ⟨.notOk 404, .ok [] false⟩ false).total) :=
  (failure_paths_persist_metadata cfgOpfs emptySt "m" "u" "k"
    ⟨.notOk 404, .ok [] false⟩ io0 false (by decide)).1
    (.message "Failed to get model info. Status: 404") rfl

/-! ## C5 -/

/-- C5: a transfer terminated by user cancellation persists status
`paused` with the loop's last observed `downloaded`/`total` and no
error message; a non-cancellation failure persists `error` with a
message, on both backends. -/
theorem cancellation_persists_paused (cfg : Cfg) (σ : St)
    (id url hfApiKey : String) (oo : OpfsOracle) (io : IdbOracle)
    (isResume : Bool) (hkey : hfApiKey ≠ "") :
    ((runOpfsDownload cfg σ id url hfApiKey oo isResume).err = some .aborted →
      metaGet (runOpfsDownload cfg σ id url hfApiKey oo isResume).st id =
        some ⟨(runOpfsDownload cfg σ id url hfApiKey oo isResume).total, .paused,
          some (runOpfsDownload cfg σ id url hfApiKey oo isResume).downloaded, none⟩) ∧
    (∀ msg, (runOpfsDownload cfg σ id url hfApiKey oo isResume).err = some (.message msg) →
      metaGet (runOpfsDownload cfg σ id url hfApiKey oo isResume).st id =
        some ⟨(runOpfsDownload cfg σ id url hfApiKey oo isResume).total, .error,
          none, some msg⟩) ∧
    ((runIdbDownload cfg σ id hfApiKey io isResume).err = some .aborted →
      metaGet (runIdbDownload cfg σ id hfApiKey io isResume).st id =
        some ⟨(runIdbDownload cfg σ id hfApiKey io isResume).total, .paused,
          some (runIdbDownload cfg σ id hfApiKey io isResume).downloaded, none⟩) ∧
    (∀ msg, (runIdbDownload cfg σ id hfApiKey io isResume).err = some (.message msg) →
      metaGet (runIdbDownload cfg σ id hfApiKey io isResume).st id =
        some ⟨(runIdbDownload cfg σ id hfApiKey io isResume).total, .error,
          none, some msg⟩) := by
  refine ⟨fun h => ?_, fun msg h => ?_, fun h => ?_, fun msg h => ?_⟩
  · exact runOpfs_err_meta cfg σ id url hfApiKey oo isResume hkey .aborted h
  · exact runOpfs_err_meta cfg σ id url hfApiKey oo isResume hkey (.message msg) h
  · exact runIdb_err_meta cfg σ id hfApiKey io isResume hkey .aborted h
  · exact runIdb_err_meta cfg σ id hfApiKey io isResume hkey (.message msg) h

/-- C5 witness: cancelling during the HEAD request of an OPFS transfer
persists `paused` with the observed counters and no error message. -/
theorem cancellation_persists_paused_inst :
    metaGet (runOpfsDownload cfgOpfs emptySt "m" "u" "k" ⟨.aborted, .ok [] false⟩ false).st "m" =
      some ⟨(runOpfsDownload cfgOpfs emptySt "m" "u" "k" ⟨.aborted, .ok [] false⟩ false).total,
        .paused,
        some (runOpfsDownload cfgOpfs emptySt "m" "u" "k" ⟨.aborted, .ok [] false⟩ false).downloaded,
        none⟩ :=
  (cancellation_persists_paused cfgOpfs emptySt "m" "u" "k"
    ⟨.aborted, .ok [] false⟩ io0 false (by decide)).1 rfl

/-! ## C8 -/

lemma pauseDownload_controllers (σ : St) (id : String) :
    (pauseDownload σ id).controllers = σ.controllers.filter (fun x => !(x == id)) := by
  unfold pauseDownload
  split_ifs with h
  · rfl
  · symm
    rw [List.filter_eq_self]
    intro x hx
    have hne : x ≠ id := fun e => h (e ▸ hx)
    simp [hne]

lemma pauseDownload_activeLoops (σ : St) (id : String) :
    (pauseDownload σ id).activeLoops = σ.activeLoops := by
  unfold pauseDownload
  split_ifs <;> rfl

lemma pauseDownload_meta (σ : St) (id : String) :
    (pauseDownload σ id).meta = σ.meta := by
  unfold pauseDownload; split_ifs <;> rfl

lemma pauseDownload_chunks (σ : St) (id : String) :
    (pauseDownload σ id).chunks = σ.chunks := by
  unfold pauseDownload; split_ifs <;> rfl

lemma pauseDownload_consolidated (σ : St) (id : String) :
    (pauseDownload σ id).consolidated = σ.consolidated := by
  unfold pauseDownload; split_ifs <;> rfl

lemma pauseDownload_opfs (σ : St) (id : String) :
    (pauseDownload σ id).opfs = σ.opfs := by
  unfold pauseDownload; split_ifs <;> rfl

lemma deleteModel_meta (cfg : Cfg) (σ : St) (id : String) :
    (deleteModel cfg σ id).meta = σ.meta.filter (fun p => !(p.1 == id)) := by
  simp only [deleteModel]
  split_ifs <;> simp [pauseDownload_meta]

lemma deleteModel_chunks (cfg : Cfg) (σ : St) (id : String) :
    (deleteModel cfg σ id).chunks = σ.chunks.filter (fun c => !(c.modelName == id)) := by
  simp only [deleteModel]
  split_ifs <;> simp [pauseDownload_chunks]

lemma deleteModel_consolidated (cfg : Cfg) (σ : St) (id : String) :
    (deleteModel cfg σ id).consolidated =
      σ.consolidated.filter (fun p => !(p.1 == id)) := by
  simp only [deleteModel]
  split_ifs <;> simp [pauseDownload_consolidated]

lemma deleteModel_opfs (cfg : Cfg) (σ : St) (id : String) :
    (deleteModel cfg σ id).opfs =
      if cfg.isOpfsSupported && cfg.opfsAvailable then
        σ.opfs.filter (fun p => !(p.1 == id))
      else σ.opfs := by
  simp only [deleteModel]
  split_ifs <;> simp [pauseDownload_opfs]

lemma deleteModel_controllers (cfg : Cfg) (σ : St) (id : String) :
    (deleteModel cfg σ id).controllers =
      σ.controllers.filter (fun x => !(x == id)) := by
  simp only [deleteModel]
  split_ifs <;> simp [pauseDownload_controllers]

lemma deleteModel_activeLoops (cfg : Cfg) (σ : St) (id : String) :
    (deleteModel cfg σ id).activeLoops = σ.activeLoops := by
  simp only [deleteModel]
  split_ifs <;> simp [pauseDownload_activeLoops]

lemma filter_eq_nil_compl {α : Type _} (p : α → Bool) (l : List α)
    (h : l.filter p = []) : l.filter (fun a => !(p a)) = l := by
  rw [List.filter_eq_self]
  intro a ha
  have hp : ¬ p a = true := by
    intro hp
    have : a ∈ l.filter p := List.mem_filter.mpr ⟨ha, hp⟩
    simp [h] at this
  simp only [Bool.not_eq_true] at hp
  simp [hp]

/-- C8: `deleteModel` is idempotent — running it twice leaves exactly
the state of running it once — and on an id with no metadata, chunks,
consolidated blob, file entry, or live controller it is a complete
no-op (it completes without error and changes nothing). -/
theorem deleteModel_idempotent_and_noop (cfg : Cfg) (σ : St) (id : String) :
    deleteModel cfg (deleteModel cfg σ id) id = deleteModel cfg σ id ∧
    (metaGet σ id = none → chunksFor σ id = [] → consolidatedGet σ id = none →
      opfsGet σ id = none → id ∉ σ.controllers →
      deleteModel cfg σ id = σ) := by
  constructor
  · apply St.extEq
    · rw [deleteModel_meta, deleteModel_meta, filter_twice]
    · rw [deleteModel_chunks, deleteModel_chunks, filter_twice]
    · rw [deleteModel_consolidated, deleteModel_consolidated, filter_twice]
    · rw [deleteModel_opfs, deleteModel_opfs]
      split_ifs with hflag
      · rw [filter_twice]
      · rfl
    · rw [deleteModel_controllers, deleteModel_controllers, filter_twice]
    · rw [deleteModel_activeLoops, deleteModel_activeLoops]
  · intro hm hc hk ho hctrl
    apply St.extEq
    · rw [deleteModel_meta]
      exact find?_none_filter_self _ _ ((metaGet_eq_none_iff σ id).mp hm)
    · rw [deleteModel_chunks]
      exact filter_eq_nil_compl _ _ hc
    · rw [deleteModel_consolidated]
      exact find?_none_filter_self _ _ ((consolidatedGet_eq_none_iff σ id).mp hk)
    · rw [deleteModel_opfs]
      split_ifs with hflag
      · exact find?_none_filter_self _ _ ((opfsGet_eq_none_iff σ id).mp ho)
      · rfl
    · rw [deleteModel_controllers]
      rw [List.filter_eq_self]
      intro x hx
      have hne : x ≠ id := fun e => hctrl (e ▸ hx)
      simp [hne]
    · rw [deleteModel_activeLoops]

/-- C8 witness: deleting a never-seen artifact on the empty state is a
no-op. -/
theorem deleteModel_idempotent_and_noop_inst :
    deleteModel cfgOpfs emptySt "m" = emptySt :=
  (deleteModel_idempotent_and_noop cfgOpfs emptySt "m").2 rfl rfl rfl rfl
    (by simp [emptySt])

/-! ## C6 -/

lemma chunksFor_metaPut (σ : St) (id j : String) (m : MetaRecord) :
    chunksFor (metaPut σ id m) j = chunksFor σ j := rfl

lemma consolidatedGet_metaPut (σ : St) (id j : String) (m : MetaRecord) :
    consolidatedGet (metaPut σ id m) j = consolidatedGet σ j := rfl

lemma consolidatedGet_deleteChunksFor (σ : St) (id j : String) :
    consolidatedGet (deleteChunksFor σ id) j = consolidatedGet σ j := rfl

lemma consolidatedGet_consolidatedPut_self (σ : St) (id : String) (blob : List Nat) :
    consolidatedGet (consolidatedPut σ id blob) id = some blob := by
  simp [consolidatedGet, consolidatedPut]

lemma consolidateModel_noMeta (σ : St) (id : String) (oc : ConsOracle)
    (hm : metaGet σ id = none) :
    (consolidateModel σ id oc).st = σ ∧
    (consolidateModel σ id oc).outcome = .noMeta := by
  unfold consolidateModel
  simp only [hm]
  constructor <;> trivial

lemma consolidateModel_recFail (σ : St) (id : String) (oc : ConsOracle)
    (m : MetaRecord) (hm : metaGet σ id = some m)
    (hrec : getModelFromChunksAsStream σ id oc.blobFail = none) :
    (consolidateModel σ id oc).st =
      metaPut σ id ⟨m.total, .error, none,
        some "Failed to reconstruct model from chunks."⟩ ∧
    (consolidateModel σ id oc).outcome =
      .failed "Failed to reconstruct model from chunks." := by
  unfold consolidateModel
  simp only [hm, hrec]
  constructor <;> trivial

lemma consolidateModel_putFail (σ : St) (id : String) (oc : ConsOracle)
    (m : MetaRecord) (blob : List Nat) (hm : metaGet σ id = some m)
    (hrec : getModelFromChunksAsStream σ id oc.blobFail = some blob)
    (hput : oc.putFail = true) :
    (consolidateModel σ id oc).st =
      metaPut σ id ⟨m.total, .error, none,
        some "Failed to store consolidated model."⟩ ∧
    (consolidateModel σ id oc).outcome =
      .failed "Failed to store consolidated model." := by
  unfold consolidateModel
  simp only [hm, hrec, hput, if_true]
  constructor <;> trivial

lemma consolidateModel_ok (σ : St) (id : String) (oc : ConsOracle)
    (m : MetaRecord) (blob : List Nat) (hm : metaGet σ id = some m)
    (hrec : getModelFromChunksAsStream σ id oc.blobFail = some blob)
    (hput : oc.putFail = false) :
    (consolidateModel σ id oc).st =
      metaPut (deleteChunksFor (consolidatedPut σ id blob) id) id
        ⟨m.total, .completed, some m.total, none⟩ ∧
    (consolidateModel σ id oc).outcome = .ok := by
  unfold consolidateModel
  simp only [hm, hrec, hput, Bool.false_eq_true, if_false]
  constructor <;> trivial

/-- C6: if consolidation fails, the operation persists status `error`
with a message while leaving every stored chunk of the artifact (and
hence the recoverable downloaded byte count) untouched; conversely,
whenever the chunk set changed at all, the consolidated blob had been
successfully stored. -/
theorem consolidation_failure_preserves_chunks (σ : St) (id : String)
    (oc : ConsOracle) :
    (∀ msg, (consolidateModel σ id oc).outcome = .failed msg →
      chunksFor (consolidateModel σ id oc).st id = chunksFor σ id ∧
      chunkSum (consolidateModel σ id oc).st id = chunkSum σ id ∧
      ∃ m, metaGet (consolidateModel σ id oc).st id = some m ∧
        m.status = .error ∧ m.error = some msg) ∧
    (chunksFor (consolidateModel σ id oc).st id ≠ chunksFor σ id →
      (consolidatedGet (consolidateModel σ id oc).st id).isSome = true) := by
  cases hm : metaGet σ id with
  | none =>
      obtain ⟨hst, hout⟩ := consolidateModel_noMeta σ id oc hm
      refine ⟨fun msg hmsg => ?_, fun hne => ?_⟩
      · rw [hout] at hmsg; exact absurd hmsg (by simp)
      · rw [hst] at hne; exact absurd rfl hne
  | some m =>
      cases hrec : getModelFromChunksAsStream σ id oc.blobFail with
      | none =>
          obtain ⟨hst, hout⟩ := consolidateModel_recFail σ id oc m hm hrec
          refine ⟨fun msg hmsg => ?_, fun hne => ?_⟩
          · rw [hout] at hmsg
            cases hmsg
            rw [hst]
            exact ⟨chunksFor_metaPut _ _ _ _, by
              unfold chunkSum; rw [chunksFor_metaPut],
              _, metaGet_metaPut _ _ _, rfl, rfl⟩
          · rw [hst] at hne
            exact absurd (chunksFor_metaPut σ id id _) hne
      | some blob =>
          cases hput : oc.putFail with
          | true =>
              obtain ⟨hst, hout⟩ :=
                consolidateModel_putFail σ id oc m blob hm hrec hput
              refine ⟨fun msg hmsg => ?_, fun hne => ?_⟩
              · rw [hout] at hmsg
                cases hmsg
                rw [hst]
                exact ⟨chunksFor_metaPut _ _ _ _, by
                  unfold chunkSum; rw [chunksFor_metaPut],
                  _, metaGet_metaPut _ _ _, rfl, rfl⟩
              · rw [hst] at hne
                exact absurd (chunksFor_metaPut σ id id _) hne
          | false =>
              obtain ⟨hst, hout⟩ :=
                consolidateModel_ok σ id oc m blob hm hrec hput
              refine ⟨fun msg hmsg => ?_, fun hne => ?_⟩
              · rw [hout] at hmsg; exact absurd hmsg (by simp)
              · rw [hst]
                rw [consolidatedGet_metaPut, consolidatedGet_deleteChunksFor,
                  consolidatedGet_consolidatedPut_self]
                rfl

/-- A paused metadata record with no chunks: consolidation on it fails
(nothing to reconstruct) and must leave the (empty) chunk set alone. -/
def consFailSt : St := ⟨[("m", ⟨5, .downloading, some 5, none⟩)], [], [], [], [], []⟩

/-- C6 witness: failed reconstruction persists `error` and preserves
the chunk set. -/
theorem consolidation_failure_preserves_chunks_inst :
    chunksFor (consolidateModel consFailSt "m" ⟨false, false⟩).st "m" =
      chunksFor consFailSt "m" ∧
    chunkSum (consolidateModel consFailSt "m" ⟨false, false⟩).st "m" =
      chunkSum consFailSt "m" ∧
    ∃ m, metaGet (consolidateModel consFailSt "m" ⟨false, false⟩).st "m" = some m ∧
      m.status = .error ∧ m.error = some "Failed to reconstruct model from chunks." :=
  (consolidation_failure_preserves_chunks consFailSt "m" ⟨false, false⟩).1
    "Failed to reconstruct model from chunks." rfl

/-! ## C7 -/

lemma opfsGet_opfsPut_self (σ : St) (id : String) (content : List Nat) :
    opfsGet (opfsPut σ id content) id = some content := by
  simp [opfsGet, opfsPut]

lemma metaGet_opfsPut (σ : St) (id j : String) (content : List Nat) :
    metaGet (opfsPut σ id content) j = metaGet σ j := rfl

lemma opfsFinalize_rangeStart (σ : St) (id : String) (d total : Nat)
    (evs : List Progress) (rs : Option Nat) :
    (opfsFinalize σ id d total evs rs).rangeStart = rs := by
  unfold opfsFinalize
  dsimp only
  split_ifs <;> rfl

lemma opfsFinalize_total (σ : St) (id : String) (d total : Nat)
    (evs : List Progress) (rs : Option Nat) :
    (opfsFinalize σ id d total evs rs).total = total := by
  unfold opfsFinalize
  dsimp only
  split_ifs <;> rfl

lemma opfsStream_rangeStart (σ2 : St) (id : String) (get : GetResult)
    (downloaded total : Nat) (content : List Nat) (ev0 : Progress) :
    (opfsStream σ2 id get downloaded total content ev0).rangeStart =
      some downloaded := by
  cases get with
  | aborted => rfl
  | notOk code => rfl
  | ok bufs abortDuring =>
      cases abortDuring with
      | true => rfl
      | false =>
          show (opfsFinalize _ id _ total _ (some downloaded)).rangeStart = _
          exact opfsFinalize_rangeStart _ _ _ _ _ _

lemma opfsStream_total (σ2 : St) (id : String) (get : GetResult)
    (downloaded total : Nat) (content : List Nat) (ev0 : Progress) :
    (opfsStream σ2 id get downloaded total content ev0).total = total := by
  cases get with
  | aborted => rfl
  | notOk code => rfl
  | ok bufs abortDuring =>
      cases abortDuring with
      | true => rfl
      | false =>
          show (opfsFinalize _ id _ total _ (some downloaded)).total = _
          exact opfsFinalize_total _ _ _ _ _ _

lemma opfsTransfer_rangeStart (σ1 : St) (id : String) (get : GetResult)
    (downloaded total : Nat) (content : List Nat) (h : downloaded < total) :
    (opfsTransfer σ1 id get downloaded total content).rangeStart = some downloaded := by
  unfold opfsTransfer
  simp only [if_pos h]
  exact opfsStream_rangeStart _ _ _ _ _ _ _

lemma opfsTransfer_total (σ1 : St) (id : String) (get : GetResult)
    (downloaded total : Nat) (content : List Nat) :
    (opfsTransfer σ1 id get downloaded total content).total = total := by
  unfold opfsTransfer
  by_cases h : downloaded < total
  · simp only [if_pos h]
    exact opfsStream_total _ _ _ _ _ _ _
  · simp only [if_neg h]
    exact opfsFinalize_total _ _ _ _ _ _

lemma opfsSizing_resume (m : MetaRecord) (content : List Nat)
    (ht : 0 < m.total) :
    opfsSizing true (some m) content =
      (if m.total ≤ content.length then 0 else content.length, m.total) := by
  simp [opfsSizing, ht]

lemma opfsBody_resume_eq (cfg : Cfg) (σ : St) (id : String) (oo : OpfsOracle)
    (m : MetaRecord) (f : List Nat) (hA : cfg.opfsAvailable = true)
    (hm : metaGet σ id = some m) (ht : 0 < m.total)
    (hfile : opfsGet σ id = some f) :
    opfsBody cfg σ id oo true =
      opfsTransfer σ id oo.get (if m.total ≤ f.length then 0 else f.length)
        m.total f := by
  unfold opfsBody
  rw [if_neg (by simp [hA])]
  simp only [hfile, Option.isSome_some, if_true, Option.getD_some, hm,
    opfsSizing_resume m f ht]
  rw [if_neg (Nat.pos_iff_ne_zero.mp ht)]

lemma opfsBody_resume_eq_nofile (cfg : Cfg) (σ : St) (id : String)
    (oo : OpfsOracle) (m : MetaRecord) (hA : cfg.opfsAvailable = true)
    (hm : metaGet σ id = some m) (ht : 0 < m.total)
    (hfile : opfsGet σ id = none) :
    opfsBody cfg σ id oo true =
      opfsTransfer (opfsPut σ id []) id oo.get 0 m.total [] := by
  unfold opfsBody
  rw [if_neg (by simp [hA])]
  simp only [hfile, Option.isSome_none, Bool.false_eq_true, if_false,
    opfsGet_opfsPut_self, Option.getD_some, metaGet_opfsPut, hm,
    opfsSizing_resume m [] ht]
  rw [if_neg (Nat.pos_iff_ne_zero.mp ht)]
  congr 1
  simp

/-- C7: on the file backend, resuming with a known positive metadata
total reads the current file size as `downloadedBytes`; when that size
reaches or exceeds the total the transfer restarts from offset 0, so
the `Range` request offset — whenever a range request is issued — is
strictly below the total. -/
theorem opfs_resume_range_strictly_below_total (cfg : Cfg) (σ : St)
    (id : String) (oo : OpfsOracle) (m : MetaRecord)
    (hA : cfg.opfsAvailable = true) (hm : metaGet σ id = some m)
    (ht : 0 < m.total) :
    (opfsBody cfg σ id oo true).total = m.total ∧
    (((opfsGet σ id).getD []).length < m.total →
      (opfsBody cfg σ id oo true).rangeStart =
        some ((opfsGet σ id).getD []).length) ∧
    (m.total ≤ ((opfsGet σ id).getD []).length →
      (opfsBody cfg σ id oo true).rangeStart = some 0) ∧
    (∀ r, (opfsBody cfg σ id oo true).rangeStart = some r → r < m.total) := by
  cases hfile : opfsGet σ id with
  | none =>
      rw [opfsBody_resume_eq_nofile cfg σ id oo m hA hm ht hfile]
      refine ⟨opfsTransfer_total _ _ _ _ _ _, fun h2 => ?_, fun h2 => ?_, fun r hr => ?_⟩
      · simpa using opfsTransfer_rangeStart _ _ _ _ _ _ ht
      · simpa using opfsTransfer_rangeStart _ _ _ _ _ _ ht
      · rw [opfsTransfer_rangeStart _ _ _ _ _ _ ht] at hr
        cases hr
        exact ht
  | some f =>
      rw [opfsBody_resume_eq cfg σ id oo m f hA hm ht hfile]
      by_cases hle : m.total ≤ f.length
      · rw [if_pos hle]
        refine ⟨opfsTransfer_total _ _ _ _ _ _, fun h2 => ?_, fun h2 => ?_, fun r hr => ?_⟩
        · exact absurd h2 (by simp [hfile]; omega)
        · simpa using opfsTransfer_rangeStart _ _ _ _ _ _ ht
        · rw [opfsTransfer_rangeStart _ _ _ _ _ _ ht] at hr
          cases hr
          exact ht
      · have hlt : f.length < m.total := Nat.lt_of_not_le hle
        rw [if_neg hle]
        refine ⟨opfsTransfer_total _ _ _ _ _ _, fun h2 => ?_, fun h2 => ?_, fun r hr => ?_⟩
        · simpa [hfile] using opfsTransfer_rangeStart _ _ _ _ _ _ hlt
        · exact absurd h2 (by simp [hfile]; omega)
        · rw [opfsTransfer_rangeStart _ _ _ _ _ _ hlt] at hr
          cases hr
          exact hlt

/-- A paused 10-byte download whose file currently holds 3 bytes. -/
def resumeSt : St :=
  ⟨[("m", ⟨10, .paused, some 3, none⟩)], [], [], [("m", [9, 9, 9])], [], []⟩

/-- C7 witness: resuming the 3-of-10-byte file issues
`Range: bytes=3-`. -/
theorem opfs_resume_range_strictly_below_total_inst :
    (opfsBody cfgOpfs resumeSt "m" ⟨.ok 10, .aborted⟩ true).rangeStart = some 3 :=
  ((opfs_resume_range_strictly_below_total cfgOpfs resumeSt "m" ⟨.ok 10, .aborted⟩
    ⟨10, .paused, some 3, none⟩ rfl rfl (by decide)).2.1 (by decide))

/-! ## C3 -/

/-- The chunk invariant: the stored chunk lengths for the artifact sum
to the `downloaded` counter, and the stored chunk indices are exactly
`0..chunkIndex-1` with no gaps. -/
def ChunkInv (σ : St) (id : String) (downloaded chunkIndex : Nat) : Prop :=
  chunkSum σ id = downloaded ∧ (chunkIdxs σ id).Perm (List.range chunkIndex)

lemma chunksFor_deleteModel (cfg : Cfg) (σ : St) (id : String) :
    chunksFor (deleteModel cfg σ id) id = [] := by
  unfold chunksFor
  rw [deleteModel_chunks, List.filter_filter]
  apply List.filter_eq_nil_iff.mpr
  intro c hc
  cases h : c.modelName == id <;> simp [h]

lemma chunksFor_chunksPut_self (σ : St) (id : String) (k : Nat) (data : List Nat)
    (hk : k ∉ chunkIdxs σ id) :
    chunksFor (chunksPut σ ⟨id, k, data⟩) id =
      ChunkRec.mk id k data :: chunksFor σ id := by
  unfold chunksFor chunksPut
  dsimp only
  rw [List.filter_cons]
  simp only [beq_self_eq_true, if_true]
  congr 1
  rw [List.filter_filter]
  apply List.filter_congr
  intro c hc
  cases hm : c.modelName == id
  · simp [hm]
  · have hne : c.chunkIndex ≠ k := by
      intro e
      apply hk
      unfold chunkIdxs chunksFor
      exact List.mem_map.mpr ⟨c, List.mem_filter.mpr ⟨hc, hm⟩, e⟩
    simp [hm, hne]

lemma chunkInv_step (σ : St) (id : String) (d k : Nat) (data : List Nat)
    (h : ChunkInv σ id d k) :
    ChunkInv (chunksPut σ ⟨id, k, data⟩) id (d + data.length) (k + 1) := by
  obtain ⟨hsum, hperm⟩ := h
  have hk : k ∉ chunkIdxs σ id := by
    intro hmem
    have hk2 := hperm.mem_iff.mp hmem
    simp [List.mem_range] at hk2
  have hcf := chunksFor_chunksPut_self σ id k data hk
  constructor
  · unfold chunkSum at hsum ⊢
    rw [hcf, List.map_cons, List.sum_cons, hsum]
    dsimp only
    omega
  · unfold chunkIdxs at hperm ⊢
    rw [hcf, List.map_cons]
    dsimp only
    have h1 : (k :: (chunksFor σ id).map (fun c => c.chunkIndex)).Perm
        (k :: List.range k) := hperm.cons k
    have h2 : (k :: List.range k).Perm (List.range (k + 1)) := by
      rw [List.range_succ]
      exact (List.perm_append_singleton k (List.range k)).symm
    exact h1.trans h2

lemma chunkInv_idbLoop (σ : St) (id : String) (d total k : Nat)
    (script : List ChunkFetch) (h : ChunkInv σ id d k) :
    ChunkInv (idbLoop σ id d total k script).st id
      (idbLoop σ id d total k script).downloaded
      (idbLoop σ id d total k script).chunkIndex := by
  induction script generalizing σ d k with
  | nil =>
      by_cases hd : d < total <;> simp [idbLoop, hd] <;> exact h
  | cons f rest ih =>
      by_cases hd : d < total
      · cases f with
        | aborted => simp [idbLoop, hd]; exact h
        | notOk code => simp [idbLoop, hd]; exact h
        | ok data =>
            simp only [idbLoop, if_pos hd]
            exact ih _ _ _ (chunkInv_step σ id d k data h)
      · simp [idbLoop, hd]; exact h

/-- C3: the chunk invariant — `sum(chunk lengths) = downloadedBytes`
and indices exactly `0..chunkIndex-1` — holds after the fresh-start
purge, is established by resume initialization (which recomputes
`downloadedBytes` as the chunk sum and `chunkIndex` as the chunk
count), is preserved by each loop iteration (store chunk `chunkIndex`,
advance by its actual length), and therefore holds after the whole
chunk loop. -/
theorem idb_chunk_invariant (cfg : Cfg) (σ : St) (id : String)
    (downloaded k n total : Nat) (data : List Nat) (script : List ChunkFetch) :
    ChunkInv (deleteModel cfg σ id) id 0 0 ∧
    ((chunkIdxs σ id).Perm (List.range n) →
      ChunkInv σ id (chunkSum σ id) ((chunksFor σ id).length)) ∧
    (ChunkInv σ id downloaded k →
      ChunkInv (chunksPut σ ⟨id, k, data⟩) id (downloaded + data.length) (k + 1)) ∧
    (ChunkInv σ id downloaded k →
      ChunkInv (idbLoop σ id downloaded total k script).st id
        (idbLoop σ id downloaded total k script).downloaded
        (idbLoop σ id downloaded total k script).chunkIndex) := by
  refine ⟨⟨?_, ?_⟩, fun hperm => ⟨rfl, ?_⟩,
    fun h => chunkInv_step σ id downloaded k data h,
    fun h => chunkInv_idbLoop σ id downloaded total k script h⟩
  · unfold chunkSum
    rw [chunksFor_deleteModel]
    rfl
  · unfold chunkIdxs
    rw [chunksFor_deleteModel]
    simp
  · have hlen : (chunksFor σ id).length = n := by
      have hl := hperm.length_eq
      simpa [chunkIdxs, List.length_map, List.length_range] using hl
    rw [hlen]
    exact hperm

/-- C3 witness: one loop iteration from the empty store. -/
theorem idb_chunk_invariant_inst :
    ChunkInv (chunksPut emptySt ⟨"m", 0, [7, 7]⟩) "m"
      (0 + ([7, 7] : List Nat).length) (0 + 1) :=
  (idb_chunk_invariant cfgIdb emptySt "m" 0 0 0 0 [7, 7] []).2.2.1
    ⟨rfl, by decide⟩

/-! ## C9 -/

/-- C9: with no persisted metadata for the id, `getStatus` returns
exactly `{downloaded: 0, total: 0, percent: 0, status: not_started}`
with no error field, independently of the file backend and the chunk
store (the result does not inspect them). -/
theorem getStatus_no_meta (cfg : Cfg) (σ : St) (id : String)
    (h : metaGet σ id = none) :
    getStatus cfg σ id = ⟨0, 0, 0, .not_started, none⟩ := by
  simp [getStatus, h]

/-- C9 witness: `getStatus` on the empty state. -/
theorem getStatus_no_meta_inst :
    getStatus cfgOpfs emptySt "m" = ⟨0, 0, 0, .not_started, none⟩ :=
  getStatus_no_meta cfgOpfs emptySt "m" rfl

/-! ## C10 -/

/-- C10: chunk reconstruction returns null whenever no chunk exists for
the id, and a non-null result implies at least one stored chunk. -/
theorem getModelFromChunks_none_without_chunks (σ : St) (id : String)
    (blobFail : Bool) :
    (chunksFor σ id = [] → getModelFromChunksAsStream σ id blobFail = none) ∧
    (∀ b, getModelFromChunksAsStream σ id blobFail = some b →
      chunksFor σ id ≠ []) := by
  constructor
  · intro h
    simp [getModelFromChunksAsStream, h]
  · intro b hb h
    simp [getModelFromChunksAsStream, h] at hb

/-- C10 witness: reconstruction on the empty state yields null. -/
theorem getModelFromChunks_none_without_chunks_inst :
    getModelFromChunksAsStream emptySt "m" false = none :=
  (getModelFromChunks_none_without_chunks emptySt "m" false).1 rfl

end GeminiDM
